import Mathlib

/-!
Verification model of the `turtle-web` chat client core: the conversation
state store (`Mailroom`, `src/mailroom.rs`) and the connection/dispatch
runtime (`Runtime`, `src/ws.rs`).

Rust `HashMap`s are modelled as association lists with unique keys
(`lookupKey` returns the first binding; all mutating operations keep keys
distinct, matching a hash map's key-uniqueness).  Wall-clock callbacks are
modelled as traces of the calls the code makes.
-/

/-- A user id.  Modelled from the spec: ids are opaque integers, the
`Channel`/`User` tag of `SendableId` keeps the two id spaces apart. -/
abbrev UserId := Nat

/-- A channel id.  Modelled from the spec, as for `UserId`. -/
abbrev ChannelId := Nat

/-- Conversation identity: `turtle_protocol::SendableId`, a tagged union of a
user id or a channel id.  Modelled from the spec: tagged key identifying
either a channel or a user-as-DM-partner. -/
inductive SendableId
  | U (uid : UserId)
  | C (cid : ChannelId)
deriving DecidableEq, Repr

/-- `SendableId::is_channel`. -/
def SendableId.is_channel : SendableId → Bool
  | .C _ => true
  | .U _ => false

/-- `SendableId::is_user`. -/
def SendableId.is_user : SendableId → Bool
  | .U _ => true
  | .C _ => false

/-- `turtle_protocol::ChatMessage`.  Modelled from the spec: `id` (unique),
`from` (the sender, here `from'` since `from` is reserved), `to` (a
conversation identity), `content`, `ts`. -/
structure ChatMessage where
  id : Nat
  from' : UserId
  to' : SendableId
  content : String
  ts : Nat
deriving DecidableEq, Repr

/-- `turtle_protocol::User`.  Modelled from the spec: `id`, `username`,
optional `flair`. -/
structure User where
  id : UserId
  username : String
  flair : Option String
deriving DecidableEq, Repr

/-- `turtle_protocol::Channel`.  Modelled from the spec: `{id, name}`. -/
structure Channel where
  id : ChannelId
  name : String
deriving DecidableEq, Repr

/-- `turtle_protocol::ChannelsInfo`: the channel list snapshot payload.
Modelled from the spec. -/
structure ChannelsInfo where
  channels : List Channel
deriving DecidableEq, Repr

/-- `turtle_protocol::UsersInfo`: the user list snapshot payload.
Modelled from the spec. -/
structure UsersInfo where
  users : List User
deriving DecidableEq, Repr

/-! ### Association lists modelling Rust `HashMap` -/

/-- First value bound to `k`, like `HashMap::get`. -/
def lookupKey [DecidableEq α] (k : α) : List (α × β) → Option β
  | [] => none
  | (k', v) :: rest => if k' = k then some v else lookupKey k rest

/-- `HashMap::entry(k).or_insert(v)`: keep the map if `k` is bound, else add
the binding `(k, v)`. -/
def insertAbsent [DecidableEq α] (k : α) (v : β) (l : List (α × β)) : List (α × β) :=
  match lookupKey k l with
  | some _ => l
  | none => l ++ [(k, v)]

/-- `HashMap::insert(k, v)`: bind `k` to `v`, replacing any existing
binding. -/
def insertReplace [DecidableEq α] (k : α) (v : β) : List (α × β) → List (α × β)
  | [] => [(k, v)]
  | (k', v') :: rest =>
    if k' = k then (k, v) :: rest else (k', v') :: insertReplace k v rest

/-- Apply `f` to the value bound to `k` (no-op when `k` is unbound): the
mutation performed through the reference `HashMap::entry` hands out. -/
def updateVal [DecidableEq α] (k : α) (f : β → β) : List (α × β) → List (α × β)
  | [] => []
  | (k', v) :: rest =>
    if k' = k then (k', f v) :: rest else (k', v) :: updateVal k f rest

/-- `HashMap::remove(k)`: drop the binding for `k`. -/
def eraseKey [DecidableEq α] (k : α) : List (α × β) → List (α × β)
  | [] => []
  | (k', v) :: rest =>
    if k' = k then eraseKey k rest else (k', v) :: eraseKey k rest

/-- The keys of an association list. -/
def keysOf (l : List (α × β)) : List α := l.map Prod.fst

/-- How many bindings `k` has. -/
def countKey [DecidableEq α] (k : α) (l : List (α × β)) : Nat :=
  l.countP (fun p => decide (p.1 = k))

/-! ### Mailbox (`src/mailroom.rs`, `struct Mailbox`) -/

/-- Per-conversation record: display name, unread flag, active flag,
message log. -/
structure Mailbox where
  display_name : String
  has_unread : Bool
  is_active : Bool
  messages : List ChatMessage
deriving DecidableEq, Repr

/-- `Mailbox::new`. -/
def Mailbox.new (display_name : String) : Mailbox :=
  { display_name := display_name, has_unread := false, is_active := false, messages := [] }

/-- `Mailbox::add_message`: push the message, then set `has_unread` iff the
mailbox is not active. -/
def Mailbox.add_message (mb : Mailbox) (msg : ChatMessage) : Mailbox :=
  { mb with
    messages := mb.messages ++ [msg]
    has_unread := if mb.is_active then mb.has_unread else true }

/-- `Mailbox::set_active`. -/
def Mailbox.set_active (mb : Mailbox) : Mailbox :=
  { mb with is_active := true, has_unread := false }

/-- `Mailbox::set_inactive`. -/
def Mailbox.set_inactive (mb : Mailbox) : Mailbox :=
  { mb with is_active := false }

/-! ### Mailroom (`src/mailroom.rs`, `struct Mailroom`)

The `active_hook` slot is omitted: it stores an external callback whose own
calls back into the mailroom are further operations of the trace, so it does
not affect the state transitions modelled here. -/

/-- The conversation state store. -/
structure Mailroom where
  active_id : SendableId
  current_user_id : Option UserId
  mailboxes : List (SendableId × Mailbox)
  users : List (UserId × User)
deriving Repr

/-- `Mailroom::new`. -/
def Mailroom.new (active_id : SendableId) : Mailroom :=
  { active_id := active_id, current_user_id := none, mailboxes := [], users := [] }

/-- `Mailroom::set_current_user_id`. -/
def Mailroom.set_current_user_id (m : Mailroom) (user_id : UserId) : Mailroom :=
  { m with current_user_id := some user_id }

/-- `Mailroom::add_channel`: `mailboxes.entry(sid).or_insert(Mailbox::new(name))`. -/
def Mailroom.add_channel (m : Mailroom) (channel : Channel) : Mailroom :=
  { m with
    mailboxes := insertAbsent (SendableId.C channel.id) (Mailbox.new channel.name) m.mailboxes }

/-- `Mailroom::add_channels`: the same insert-if-absent, for each channel of
the snapshot in order. -/
def Mailroom.add_channels (m : Mailroom) (info : ChannelsInfo) : Mailroom :=
  info.channels.foldl Mailroom.add_channel m

/-- One step of `Mailroom::add_users`: insert-if-absent into the mailbox
table and the user directory. -/
def Mailroom.add_user_entry (m : Mailroom) (user : User) : Mailroom :=
  { m with
    mailboxes := insertAbsent (SendableId.U user.id) (Mailbox.new user.username) m.mailboxes
    users := insertAbsent user.id user m.users }

/-- `Mailroom::add_users`: `add_user_entry` for each user of the snapshot in
order. -/
def Mailroom.add_users (m : Mailroom) (info : UsersInfo) : Mailroom :=
  info.users.foldl Mailroom.add_user_entry m

/-- `Mailroom::add_user`: plain `insert` into both tables — it replaces any
existing mailbox and directory entry. -/
def Mailroom.add_user (m : Mailroom) (user : User) : Mailroom :=
  { m with
    mailboxes := insertReplace (SendableId.U user.id) (Mailbox.new user.username) m.mailboxes
    users := insertReplace user.id user m.users }

/-- `Mailroom::remove_user`: remove the mailbox and the directory entry. -/
def Mailroom.remove_user (m : Mailroom) (user_id : UserId) : Mailroom :=
  { m with
    mailboxes := eraseKey (SendableId.U user_id) m.mailboxes
    users := eraseKey user_id m.users }

/-- `Mailroom::get_user`. -/
def Mailroom.get_user (m : Mailroom) (user_id : UserId) : Option User :=
  lookupKey user_id m.users

/-- The mailbox key `Mailroom::add_message` resolves for a message: a DM
addressed to the current session's user files under the sender, anything
else under the literal addressee. -/
def Mailroom.mailbox_id_for (m : Mailroom) (msg : ChatMessage) : SendableId :=
  match msg.to' with
  | .U uid =>
    match m.current_user_id with
    | some id => if id = uid then .U msg.from' else .U uid
    | none => .U uid
  | channel_to => channel_to

/-- `Mailroom::add_message`: resolve the key, lazily create a mailbox named
"unknown" if none exists, then `Mailbox::add_message` on it. -/
def Mailroom.add_message (m : Mailroom) (msg : ChatMessage) : Mailroom :=
  let mailbox_id := m.mailbox_id_for msg
  { m with
    mailboxes :=
      updateVal mailbox_id (fun mb => mb.add_message msg)
        (insertAbsent mailbox_id (Mailbox.new "unknown") m.mailboxes) }

/-- Lexicographic comparison of char lists: Rust's `String::cmp` (UTF-8
byte order coincides with code point order). -/
def charListLe : List Char → List Char → Bool
  | [], _ => true
  | _ :: _, [] => false
  | c :: cs, d :: ds =>
    if c.toNat < d.toNat then true
    else if d.toNat < c.toNat then false
    else charListLe cs ds

/-- `a <= b` in Rust's `String` ordering. -/
def strLe (a b : String) : Bool := charListLe a.data b.data

/-- Name-lexicographic order on `(id, name)` pairs, the comparator
`a.1.cmp(&b.1)` of `Mailroom::channel_list`. -/
def nameLe (a b : ChannelId × String) : Prop := strLe a.2 b.2 = true

instance : DecidableRel nameLe := fun a b =>
  inferInstanceAs (Decidable (strLe a.2 b.2 = true))

/-- `Mailroom::channel_list`: the channel-kind mailboxes as
`(id, display name)` pairs, sorted by name. -/
def Mailroom.channel_list (m : Mailroom) : List (ChannelId × String) :=
  (m.mailboxes.filterMap (fun p =>
    match p.1 with
    | .C cid => some (cid, p.2.display_name)
    | .U _ => none)).insertionSort nameLe

/-- The comparator of `Mailroom::user_list`'s `sort_by`: the current user
(when known) sorts before everyone, the rest by username. -/
def userLe (cur : Option UserId) (a b : UserId × String) : Prop :=
  match cur with
  | some c =>
    if a.1 = c then True else if b.1 = c then False else strLe a.2 b.2 = true
  | none => strLe a.2 b.2 = true

instance (cur : Option UserId) : DecidableRel (userLe cur) := fun a b =>
  match cur with
  | none => inferInstanceAs (Decidable (strLe a.2 b.2 = true))
  | some c =>
    inferInstanceAs (Decidable (if a.1 = c then True else if b.1 = c then False
      else strLe a.2 b.2 = true))

/-- `Mailroom::user_list`: the directory as `(id, username)` pairs, sorted
with the current user first, then by username. -/
def Mailroom.user_list (m : Mailroom) : List (UserId × String) :=
  (m.users.map (fun p => (p.1, p.2.username))).insertionSort (userLe m.current_user_id)

/-- `Mailroom::active_selection`. -/
def Mailroom.active_selection (m : Mailroom) : SendableId := m.active_id

/-- `Mailroom::active_messages`: the active mailbox's log, or `[]` when the
active id has no mailbox. -/
def Mailroom.active_messages (m : Mailroom) : List ChatMessage :=
  ((lookupKey m.active_id m.mailboxes).map Mailbox.messages).getD []

/-- `Mailroom::active_display_name`: `@name` for a user conversation,
`#name` for a channel, `none` when the active id has no mailbox. -/
def Mailroom.active_display_name (m : Mailroom) : Option String :=
  match lookupKey m.active_id m.mailboxes with
  | some mailbox =>
    if m.active_id.is_user then some ("@" ++ mailbox.display_name)
    else some ("#" ++ mailbox.display_name)
  | none => none

/-- `Mailroom::set_active`: deactivate the mailbox at the old pointer,
move the pointer, activate the mailbox at the new pointer.  (The
"active changed" hook it then fires is external code, see above.) -/
def Mailroom.set_active (m : Mailroom) (id : SendableId) : Mailroom :=
  { m with
    active_id := id
    mailboxes := updateVal id Mailbox.set_active
      (updateVal m.active_id Mailbox.set_inactive m.mailboxes) }

/-- `Mailroom::is_active`: the mailbox's flag, `false` when unknown. -/
def Mailroom.is_active (m : Mailroom) (id : SendableId) : Bool :=
  ((lookupKey id m.mailboxes).map Mailbox.is_active).getD false

/-- `Mailroom::has_unread`: the mailbox's flag, `false` when unknown. -/
def Mailroom.has_unread (m : Mailroom) (id : SendableId) : Bool :=
  ((lookupKey id m.mailboxes).map Mailbox.has_unread).getD false

/-! ### Lemmas about the association-list model -/

/-- Distinct keys, the invariant a Rust `HashMap` guarantees. -/
def KeysNodup (l : List (α × β)) : Prop := (keysOf l).Nodup

@[simp]
theorem lookupKey_nil [DecidableEq α] (k : α) : lookupKey k ([] : List (α × β)) = none := rfl

theorem lookupKey_cons [DecidableEq α] (k k' : α) (v : β) (l : List (α × β)) :
    lookupKey k ((k', v) :: l) = if k' = k then some v else lookupKey k l := rfl

theorem lookupKey_append [DecidableEq α] (k : α) (l l' : List (α × β)) :
    lookupKey k (l ++ l') = (lookupKey k l).orElse (fun _ => lookupKey k l') := by
  induction l with
  | nil => simp
  | cons p rest ih =>
    obtain ⟨k', v⟩ := p
    by_cases h : k' = k <;> simp [lookupKey_cons, h, ih]

theorem lookupKey_eq_none_iff [DecidableEq α] (k : α) (l : List (α × β)) :
    lookupKey k l = none ↔ k ∉ keysOf l := by
  induction l with
  | nil => simp [keysOf]
  | cons p rest ih =>
    obtain ⟨k', v⟩ := p
    by_cases h : k' = k
    · subst h; simp [lookupKey_cons, keysOf]
    · simp [lookupKey_cons, h, keysOf, ih, Ne.symm h]

theorem insertAbsent_of_isSome [DecidableEq α] (k : α) (v : β) (l : List (α × β))
    (h : (lookupKey k l).isSome) : insertAbsent k v l = l := by
  unfold insertAbsent
  cases hl : lookupKey k l with
  | some _ => rfl
  | none => rw [hl] at h; simp at h

theorem lookupKey_insertAbsent_self [DecidableEq α] (k : α) (v : β) (l : List (α × β)) :
    lookupKey k (insertAbsent k v l) = some ((lookupKey k l).getD v) := by
  unfold insertAbsent
  cases hl : lookupKey k l with
  | some w => simp [hl]
  | none => simp [lookupKey_append, hl, lookupKey_cons]

theorem lookupKey_insertAbsent_ne [DecidableEq α] {k k' : α} (v : β) (l : List (α × β))
    (h : k' ≠ k) : lookupKey k' (insertAbsent k v l) = lookupKey k' l := by
  unfold insertAbsent
  cases hl : lookupKey k l with
  | some w => rfl
  | none =>
    rw [lookupKey_append]
    cases hl' : lookupKey k' l with
    | some w => simp
    | none => simp [lookupKey_cons, Ne.symm h]

theorem lookupKey_insertReplace_self [DecidableEq α] (k : α) (v : β) (l : List (α × β)) :
    lookupKey k (insertReplace k v l) = some v := by
  induction l with
  | nil => simp [insertReplace, lookupKey_cons]
  | cons p rest ih =>
    obtain ⟨k', v'⟩ := p
    by_cases h : k' = k <;> simp [insertReplace, h, lookupKey_cons, ih]

theorem lookupKey_insertReplace_ne [DecidableEq α] {k k' : α} (v : β) (l : List (α × β))
    (h : k' ≠ k) : lookupKey k' (insertReplace k v l) = lookupKey k' l := by
  induction l with
  | nil => simp [insertReplace, lookupKey_cons, Ne.symm h]
  | cons p rest ih =>
    obtain ⟨k'', v'⟩ := p
    by_cases hk : k'' = k
    · subst hk
      simp [insertReplace, lookupKey_cons, Ne.symm h]
    · by_cases hk' : k'' = k' <;> simp [insertReplace, hk, lookupKey_cons, hk', ih, h]

theorem lookupKey_updateVal_self [DecidableEq α] (k : α) (f : β → β) (l : List (α × β)) :
    lookupKey k (updateVal k f l) = (lookupKey k l).map f := by
  induction l with
  | nil => simp [updateVal]
  | cons p rest ih =>
    obtain ⟨k', v⟩ := p
    by_cases h : k' = k <;> simp [updateVal, h, lookupKey_cons, ih]

theorem lookupKey_updateVal_ne [DecidableEq α] {k k' : α} (f : β → β) (l : List (α × β))
    (h : k' ≠ k) : lookupKey k' (updateVal k f l) = lookupKey k' l := by
  induction l with
  | nil => simp [updateVal]
  | cons p rest ih =>
    obtain ⟨k'', v⟩ := p
    by_cases hk : k'' = k
    · subst hk
      simp [updateVal, lookupKey_cons, Ne.symm h, ih]
    · by_cases hk' : k'' = k' <;> simp [updateVal, hk, lookupKey_cons, hk', ih, h]

theorem lookupKey_updateVal [DecidableEq α] (k k' : α) (f : β → β) (l : List (α × β)) :
    lookupKey k' (updateVal k f l) =
      if k' = k then (lookupKey k l).map f else lookupKey k' l := by
  by_cases h : k' = k
  · subst h; simp [lookupKey_updateVal_self]
  · simp [h, lookupKey_updateVal_ne f l h]

theorem lookupKey_eraseKey_self [DecidableEq α] (k : α) (l : List (α × β)) :
    lookupKey k (eraseKey k l) = none := by
  induction l with
  | nil => simp [eraseKey]
  | cons p rest ih =>
    obtain ⟨k', v⟩ := p
    by_cases h : k' = k
    · simpa [eraseKey, h] using ih
    · simpa [eraseKey, h, lookupKey_cons] using ih

theorem lookupKey_eraseKey_ne [DecidableEq α] {k k' : α} (l : List (α × β))
    (h : k' ≠ k) : lookupKey k' (eraseKey k l) = lookupKey k' l := by
  induction l with
  | nil => simp [eraseKey]
  | cons p rest ih =>
    obtain ⟨k'', v⟩ := p
    by_cases hk : k'' = k
    · subst hk
      simpa [eraseKey, lookupKey_cons, Ne.symm h] using ih
    · by_cases hk' : k'' = k' <;> simpa [eraseKey, hk, lookupKey_cons, hk', h] using ih

theorem eraseKey_sublist [DecidableEq α] (k : α) (l : List (α × β)) :
    (eraseKey k l).Sublist l := by
  induction l with
  | nil => simp [eraseKey]
  | cons p rest ih =>
    obtain ⟨k', v⟩ := p
    by_cases h : k' = k
    · simpa [eraseKey, h] using ih.cons (k, v)
    · simpa [eraseKey, h] using ih.cons₂ (k', v)

theorem keysOf_updateVal [DecidableEq α] (k : α) (f : β → β) (l : List (α × β)) :
    keysOf (updateVal k f l) = keysOf l := by
  induction l with
  | nil => rfl
  | cons p rest ih =>
    obtain ⟨k', v⟩ := p
    by_cases h : k' = k <;> simp [updateVal, h, keysOf] <;> simpa [keysOf] using ih

theorem keysNodup_nil : KeysNodup ([] : List (α × β)) := by
  simp [KeysNodup, keysOf]

theorem keysNodup_insertAbsent [DecidableEq α] (k : α) (v : β) {l : List (α × β)}
    (h : KeysNodup l) : KeysNodup (insertAbsent k v l) := by
  unfold insertAbsent
  cases hl : lookupKey k l with
  | some w => exact h
  | none =>
    have hk : k ∉ keysOf l := (lookupKey_eq_none_iff k l).mp hl
    unfold KeysNodup keysOf at h hk ⊢
    rw [List.map_append, List.nodup_append]
    refine ⟨h, by simp, ?_⟩
    intro a ha hb
    simp at hb
    subst hb
    exact hk ha

theorem keysOf_cons (p : α × β) (l : List (α × β)) :
    keysOf (p :: l) = p.1 :: keysOf l := rfl

theorem keysOf_insertReplace_subset [DecidableEq α] (k : α) (v : β) (l : List (α × β)) :
    keysOf (insertReplace k v l) ⊆ k :: keysOf l := by
  induction l with
  | nil =>
    intro a ha
    simp [insertReplace, keysOf] at ha
    simp [ha]
  | cons p rest ih =>
    obtain ⟨k', v'⟩ := p
    intro a ha
    by_cases hk : k' = k
    · subst hk
      rw [insertReplace, if_pos rfl, keysOf_cons] at ha
      rcases List.mem_cons.mp ha with ha | ha
      · exact ha ▸ List.mem_cons_self _ _
      · exact List.mem_cons_of_mem _ (List.mem_cons_of_mem _ ha)
    · rw [insertReplace, if_neg hk, keysOf_cons] at ha
      rcases List.mem_cons.mp ha with ha | ha
      · exact ha ▸ List.mem_cons_of_mem _ (List.mem_cons_self _ _)
      · rcases List.mem_cons.mp (ih ha) with hb | hb
        · exact hb ▸ List.mem_cons_self _ _
        · exact List.mem_cons_of_mem _ (List.mem_cons_of_mem _ hb)

theorem keysNodup_insertReplace [DecidableEq α] (k : α) (v : β) {l : List (α × β)}
    (h : KeysNodup l) : KeysNodup (insertReplace k v l) := by
  induction l with
  | nil => simp [insertReplace, KeysNodup, keysOf]
  | cons p rest ih =>
    obtain ⟨k', v'⟩ := p
    unfold KeysNodup keysOf at h
    simp only [List.map_cons, List.nodup_cons] at h
    by_cases hk : k' = k
    · subst hk
      simpa [insertReplace, KeysNodup, keysOf] using h
    · have hrest : KeysNodup (insertReplace k v rest) := ih h.2
      have hknotin : k' ∉ keysOf (insertReplace k v rest) := by
        intro hmem
        rcases List.mem_cons.mp (keysOf_insertReplace_subset k v rest hmem) with hb | hb
        · exact hk hb
        · exact h.1 hb
      unfold KeysNodup keysOf at hrest
      unfold KeysNodup keysOf
      simp only [insertReplace, hk, if_false, List.map_cons, List.nodup_cons]
      exact ⟨fun hmem => hknotin hmem, hrest⟩

theorem keysNodup_updateVal [DecidableEq α] (k : α) (f : β → β) {l : List (α × β)}
    (h : KeysNodup l) : KeysNodup (updateVal k f l) := by
  unfold KeysNodup
  rw [keysOf_updateVal]
  exact h

theorem keysNodup_eraseKey [DecidableEq α] (k : α) {l : List (α × β)}
    (h : KeysNodup l) : KeysNodup (eraseKey k l) := by
  unfold KeysNodup keysOf at h ⊢
  exact ((eraseKey_sublist k l).map Prod.fst).nodup h

theorem lookupKey_of_mem [DecidableEq α] {l : List (α × β)} {p : α × β}
    (h : KeysNodup l) (hp : p ∈ l) : lookupKey p.1 l = some p.2 := by
  induction l with
  | nil => cases hp
  | cons q rest ih =>
    obtain ⟨k', v'⟩ := q
    unfold KeysNodup keysOf at h
    simp only [List.map_cons, List.nodup_cons] at h
    rcases List.mem_cons.mp hp with hp | hp
    · subst hp; simp [lookupKey_cons]
    · have hne : k' ≠ p.1 := by
        intro he
        exact h.1 (he ▸ (List.mem_map_of_mem Prod.fst hp))
      simp [lookupKey_cons, hne]
      exact ih h.2 hp

theorem mem_of_lookupKey [DecidableEq α] {l : List (α × β)} {k : α} {v : β}
    (h : lookupKey k l = some v) : (k, v) ∈ l := by
  induction l with
  | nil => simp at h
  | cons q rest ih =>
    obtain ⟨k', v'⟩ := q
    by_cases hk : k' = k
    · subst hk
      simp [lookupKey_cons] at h
      simp [h]
    · simp [lookupKey_cons, hk] at h
      exact List.mem_cons_of_mem _ (ih h)

theorem countKey_eq_zero [DecidableEq α] {k : α} {l : List (α × β)}
    (h : lookupKey k l = none) : countKey k l = 0 := by
  induction l with
  | nil => rfl
  | cons p rest ih =>
    obtain ⟨k', v⟩ := p
    by_cases hk : k' = k
    · simp [lookupKey_cons, hk] at h
    · simp [lookupKey_cons, hk] at h
      simpa [countKey, List.countP_cons, hk] using ih h

theorem countKey_eq_one [DecidableEq α] {k : α} {l : List (α × β)}
    (hnd : KeysNodup l) (h : (lookupKey k l).isSome) : countKey k l = 1 := by
  induction l with
  | nil => simp at h
  | cons p rest ih =>
    obtain ⟨k', v⟩ := p
    unfold KeysNodup keysOf at hnd
    simp only [List.map_cons, List.nodup_cons] at hnd
    by_cases hk : k' = k
    · subst hk
      have hz : lookupKey k' rest = none := (lookupKey_eq_none_iff k' rest).mpr hnd.1
      simpa [countKey, List.countP_cons] using countKey_eq_zero hz
    · simp [lookupKey_cons, hk] at h
      simpa [countKey, List.countP_cons, hk] using ih hnd.2 h

/-- With distinct keys, at most one entry can satisfy a predicate that pins
every satisfying entry to a single key. -/
theorem countP_le_one_of_key [DecidableEq α] {l : List (α × β)} {q : α × β → Bool} {a : α}
    (hnd : KeysNodup l) (h : ∀ p ∈ l, q p = true → p.1 = a) : l.countP q ≤ 1 := by
  induction l with
  | nil => simp
  | cons p rest ih =>
    obtain ⟨k', v⟩ := p
    unfold KeysNodup keysOf at hnd
    simp only [List.map_cons, List.nodup_cons] at hnd
    by_cases hq : q (k', v) = true
    · have hk : k' = a := h (k', v) (List.mem_cons_self _ _) hq
      have hz : rest.countP q = 0 := by
        rw [List.countP_eq_zero]
        intro p hp hqp
        have := h p (List.mem_cons_of_mem _ hp) hqp
        exact absurd (List.mem_map_of_mem Prod.fst hp)
          ((hk.trans this.symm) ▸ hnd.1)
      simp [List.countP_cons, hq, hz]
    · have := ih hnd.2 (fun p hp hqp => h p (List.mem_cons_of_mem _ hp) hqp)
      simpa [List.countP_cons, hq] using this

/-! ### Operation traces and the active/unread invariant -/

/-- One public `Mailroom` mutation, for stating invariants over arbitrary
operation sequences. -/
inductive MailroomOp
  | set_current_user_id (uid : UserId)
  | add_channels (info : ChannelsInfo)
  | add_channel (c : Channel)
  | add_users (info : UsersInfo)
  | add_user (u : User)
  | remove_user (uid : UserId)
  | add_message (msg : ChatMessage)
  | set_active (id : SendableId)

/-- Apply one operation. -/
def Mailroom.apply (m : Mailroom) : MailroomOp → Mailroom
  | .set_current_user_id uid => m.set_current_user_id uid
  | .add_channels info => m.add_channels info
  | .add_channel c => m.add_channel c
  | .add_users info => m.add_users info
  | .add_user u => m.add_user u
  | .remove_user uid => m.remove_user uid
  | .add_message msg => m.add_message msg
  | .set_active id => m.set_active id

/-- Apply a sequence of operations in order. -/
def Mailroom.run (m : Mailroom) (ops : List MailroomOp) : Mailroom :=
  ops.foldl Mailroom.apply m

/-- Every mailbox whose `is_active` flag is set sits at the active pointer
`a` and has no unread flag. -/
def ActiveOkL (a : SendableId) (l : List (SendableId × Mailbox)) : Prop :=
  ∀ k mb, lookupKey k l = some mb → mb.is_active = true →
    k = a ∧ mb.has_unread = false

/-- The `Mailroom` invariant: distinct keys in both tables, and the active
flags are governed by the active pointer. -/
def MailroomWF (m : Mailroom) : Prop :=
  KeysNodup m.mailboxes ∧ KeysNodup m.users ∧ ActiveOkL m.active_id m.mailboxes

theorem lookupKey_insertAbsent_cases [DecidableEq α] {k k' : α} {v w : β}
    {l : List (α × β)} (h : lookupKey k' (insertAbsent k v l) = some w) :
    lookupKey k' l = some w ∨ (k' = k ∧ w = v ∧ lookupKey k l = none) := by
  by_cases hk : k' = k
  · subst hk
    rw [lookupKey_insertAbsent_self] at h
    cases hlk : lookupKey k' l with
    | some w0 =>
      rw [hlk, Option.getD_some] at h
      exact Or.inl h
    | none =>
      rw [hlk, Option.getD_none] at h
      injection h with h
      exact Or.inr ⟨rfl, h.symm, rfl⟩
  · rw [lookupKey_insertAbsent_ne v l hk] at h
    exact Or.inl h

theorem lookupKey_insertReplace_cases [DecidableEq α] {k k' : α} {v w : β}
    {l : List (α × β)} (h : lookupKey k' (insertReplace k v l) = some w) :
    (k' = k ∧ w = v) ∨ (k' ≠ k ∧ lookupKey k' l = some w) := by
  by_cases hk : k' = k
  · subst hk
    rw [lookupKey_insertReplace_self] at h
    injection h with h
    exact Or.inl ⟨rfl, h.symm⟩
  · rw [lookupKey_insertReplace_ne v l hk] at h
    exact Or.inr ⟨hk, h⟩

theorem lookupKey_updateVal_cases [DecidableEq α] {k k' : α} {f : β → β} {w : β}
    {l : List (α × β)} (h : lookupKey k' (updateVal k f l) = some w) :
    (k' = k ∧ ∃ w0, lookupKey k l = some w0 ∧ w = f w0) ∨
      (k' ≠ k ∧ lookupKey k' l = some w) := by
  by_cases hk : k' = k
  · subst hk
    rw [lookupKey_updateVal_self] at h
    cases hlk : lookupKey k' l with
    | some w0 =>
      rw [hlk] at h
      injection h with h
      exact Or.inl ⟨rfl, w0, rfl, h.symm⟩
    | none =>
      rw [hlk] at h
      cases h
  · rw [lookupKey_updateVal_ne f l hk] at h
    exact Or.inr ⟨hk, h⟩

theorem lookupKey_eraseKey_cases [DecidableEq α] {k k' : α} {w : β}
    {l : List (α × β)} (h : lookupKey k' (eraseKey k l) = some w) :
    k' ≠ k ∧ lookupKey k' l = some w := by
  by_cases hk : k' = k
  · subst hk
    rw [lookupKey_eraseKey_self] at h
    cases h
  · rw [lookupKey_eraseKey_ne l hk] at h
    exact ⟨hk, h⟩

theorem activeOkL_insertAbsent {a : SendableId} {l : List (SendableId × Mailbox)}
    (h : ActiveOkL a l) {k : SendableId} {v : Mailbox} (hv : v.is_active = false) :
    ActiveOkL a (insertAbsent k v l) := by
  intro k' mb hl hact
  rcases lookupKey_insertAbsent_cases hl with hl | ⟨_, hmb, _⟩
  · exact h k' mb hl hact
  · rw [hmb, hv] at hact
    cases hact

theorem activeOkL_insertReplace {a : SendableId} {l : List (SendableId × Mailbox)}
    (h : ActiveOkL a l) {k : SendableId} {v : Mailbox} (hv : v.is_active = false) :
    ActiveOkL a (insertReplace k v l) := by
  intro k' mb hl hact
  rcases lookupKey_insertReplace_cases hl with ⟨_, hmb⟩ | ⟨_, hl⟩
  · rw [hmb, hv] at hact
    cases hact
  · exact h k' mb hl hact

theorem activeOkL_eraseKey {a : SendableId} {l : List (SendableId × Mailbox)}
    (h : ActiveOkL a l) (k : SendableId) : ActiveOkL a (eraseKey k l) := by
  intro k' mb hl hact
  exact h k' mb (lookupKey_eraseKey_cases hl).2 hact

/-- `Mailbox.add_message` keeps `is_active`, and keeps `has_unread` on an
active mailbox, so it preserves the invariant. -/
theorem activeOkL_updateVal_add_message {a : SendableId} {l : List (SendableId × Mailbox)}
    (h : ActiveOkL a l) (k : SendableId) (msg : ChatMessage) :
    ActiveOkL a (updateVal k (fun mb => mb.add_message msg) l) := by
  intro k' mb hl hact
  rcases lookupKey_updateVal_cases hl with ⟨hk, mb0, hlk, hmb⟩ | ⟨_, hl⟩
  · subst hk
    have hact0 : mb0.is_active = true := by
      rw [hmb] at hact
      simpa [Mailbox.add_message] using hact
    obtain ⟨hk0, hu0⟩ := h k' mb0 hlk hact0
    refine ⟨hk0, ?_⟩
    rw [hmb]
    simp [Mailbox.add_message, hact0, hu0]
  · exact h k' mb hl hact

theorem activeOkL_set_active {a : SendableId} {l : List (SendableId × Mailbox)}
    (h : ActiveOkL a l) (id : SendableId) :
    ActiveOkL id (updateVal id Mailbox.set_active (updateVal a Mailbox.set_inactive l)) := by
  intro k mb hl hact
  rcases lookupKey_updateVal_cases hl with ⟨hk, mb0, hlk, hmb⟩ | ⟨hk, hl⟩
  · refine ⟨hk, ?_⟩
    rw [hmb]
    simp [Mailbox.set_active]
  · rcases lookupKey_updateVal_cases hl with ⟨_, mb0, hlk, hmb⟩ | ⟨hka, hl⟩
    · rw [hmb] at hact
      simp [Mailbox.set_inactive] at hact
    · obtain ⟨hka2, _⟩ := h k mb hl hact
      exact absurd hka2 hka

theorem mailbox_new_inactive (s : String) : (Mailbox.new s).is_active = false := rfl

theorem wf_set_current_user_id {m : Mailroom} (h : MailroomWF m) (uid : UserId) :
    MailroomWF (m.set_current_user_id uid) := h

theorem wf_add_channel {m : Mailroom} (h : MailroomWF m) (c : Channel) :
    MailroomWF (m.add_channel c) := by
  obtain ⟨h1, h2, h3⟩ := h
  exact ⟨keysNodup_insertAbsent _ _ h1, h2,
    activeOkL_insertAbsent h3 (mailbox_new_inactive _)⟩

theorem wf_add_user_entry {m : Mailroom} (h : MailroomWF m) (u : User) :
    MailroomWF (m.add_user_entry u) := by
  obtain ⟨h1, h2, h3⟩ := h
  exact ⟨keysNodup_insertAbsent _ _ h1, keysNodup_insertAbsent _ _ h2,
    activeOkL_insertAbsent h3 (mailbox_new_inactive _)⟩

theorem wf_foldl {γ : Type} {f : Mailroom → γ → Mailroom}
    (hf : ∀ m x, MailroomWF m → MailroomWF (f m x)) :
    ∀ (xs : List γ) (m : Mailroom), MailroomWF m → MailroomWF (xs.foldl f m)
  | [], _, h => h
  | x :: xs, m, h => wf_foldl hf xs (f m x) (hf m x h)

theorem wf_add_channels {m : Mailroom} (h : MailroomWF m) (info : ChannelsInfo) :
    MailroomWF (m.add_channels info) :=
  wf_foldl (fun _ c hm => wf_add_channel hm c) info.channels m h

theorem wf_add_users {m : Mailroom} (h : MailroomWF m) (info : UsersInfo) :
    MailroomWF (m.add_users info) :=
  wf_foldl (fun _ u hm => wf_add_user_entry hm u) info.users m h

theorem wf_add_user {m : Mailroom} (h : MailroomWF m) (u : User) :
    MailroomWF (m.add_user u) := by
  obtain ⟨h1, h2, h3⟩ := h
  exact ⟨keysNodup_insertReplace _ _ h1, keysNodup_insertReplace _ _ h2,
    activeOkL_insertReplace h3 (mailbox_new_inactive _)⟩

theorem wf_remove_user {m : Mailroom} (h : MailroomWF m) (uid : UserId) :
    MailroomWF (m.remove_user uid) := by
  obtain ⟨h1, h2, h3⟩ := h
  exact ⟨keysNodup_eraseKey _ h1, keysNodup_eraseKey _ h2, activeOkL_eraseKey h3 _⟩

theorem wf_add_message {m : Mailroom} (h : MailroomWF m) (msg : ChatMessage) :
    MailroomWF (m.add_message msg) := by
  obtain ⟨h1, h2, h3⟩ := h
  refine ⟨keysNodup_updateVal _ _ (keysNodup_insertAbsent _ _ h1), h2, ?_⟩
  exact activeOkL_updateVal_add_message
    (activeOkL_insertAbsent h3 (mailbox_new_inactive _)) _ msg

theorem wf_set_active {m : Mailroom} (h : MailroomWF m) (id : SendableId) :
    MailroomWF (m.set_active id) := by
  obtain ⟨h1, h2, h3⟩ := h
  exact ⟨keysNodup_updateVal _ _ (keysNodup_updateVal _ _ h1), h2,
    activeOkL_set_active h3 id⟩

theorem wf_apply {m : Mailroom} (h : MailroomWF m) (op : MailroomOp) :
    MailroomWF (m.apply op) := by
  cases op with
  | set_current_user_id uid => exact wf_set_current_user_id h uid
  | add_channels info => exact wf_add_channels h info
  | add_channel c => exact wf_add_channel h c
  | add_users info => exact wf_add_users h info
  | add_user u => exact wf_add_user h u
  | remove_user uid => exact wf_remove_user h uid
  | add_message msg => exact wf_add_message h msg
  | set_active id => exact wf_set_active h id

theorem wf_new (a : SendableId) : MailroomWF (Mailroom.new a) := by
  refine ⟨keysNodup_nil, keysNodup_nil, ?_⟩
  intro k mb hl
  cases hl

theorem wf_run {m : Mailroom} (h : MailroomWF m) :
    ∀ ops : List MailroomOp, MailroomWF (m.run ops) := by
  intro ops
  induction ops generalizing m with
  | nil => exact h
  | cons op ops ih => exact ih (wf_apply h op)

/-! ### Characterizing `add_message` -/

/-- The message log filed under key `k` (empty when no mailbox exists). -/
def msgsAt (m : Mailroom) (k : SendableId) : List ChatMessage :=
  ((lookupKey k m.mailboxes).map Mailbox.messages).getD []

theorem add_message_lookup_resolved (m : Mailroom) (msg : ChatMessage) :
    lookupKey (m.mailbox_id_for msg) (m.add_message msg).mailboxes =
      some (((lookupKey (m.mailbox_id_for msg) m.mailboxes).getD
        (Mailbox.new "unknown")).add_message msg) := by
  unfold Mailroom.add_message
  rw [lookupKey_updateVal_self, lookupKey_insertAbsent_self]
  rfl

theorem add_message_lookup_other (m : Mailroom) (msg : ChatMessage) {k : SendableId}
    (hk : k ≠ m.mailbox_id_for msg) :
    lookupKey k (m.add_message msg).mailboxes = lookupKey k m.mailboxes := by
  unfold Mailroom.add_message
  rw [lookupKey_updateVal_ne _ _ hk, lookupKey_insertAbsent_ne _ _ hk]

theorem add_message_msgsAt_resolved (m : Mailroom) (msg : ChatMessage) :
    msgsAt (m.add_message msg) (m.mailbox_id_for msg) =
      msgsAt m (m.mailbox_id_for msg) ++ [msg] := by
  unfold msgsAt
  rw [add_message_lookup_resolved]
  cases hlk : lookupKey (m.mailbox_id_for msg) m.mailboxes with
  | some mb => simp [hlk, Mailbox.add_message]
  | none => simp [hlk, Mailbox.add_message, Mailbox.new]

theorem add_message_msgsAt_other (m : Mailroom) (msg : ChatMessage) {k : SendableId}
    (hk : k ≠ m.mailbox_id_for msg) :
    msgsAt (m.add_message msg) k = msgsAt m k := by
  unfold msgsAt
  rw [add_message_lookup_other m msg hk]

/-! ### Claim theorems -/

/-- C2: `add_message` resolves the mailbox key as follows: a message whose
addressee is the current session's user identity is filed under the sender's
mailbox, any other message under its literal addressee; hence with current
user `cu`, messages `{from: cu, to: User v}` and `{from: v, to: User cu}`
both land in mailbox `User v`. -/
theorem dm_routing (m : Mailroom) (msg : ChatMessage) (uid : UserId) :
    (msg.to' = SendableId.U uid → m.current_user_id = some uid →
      m.mailbox_id_for msg = SendableId.U msg.from' ∧
      msgsAt (m.add_message msg) (SendableId.U msg.from') =
        msgsAt m (SendableId.U msg.from') ++ [msg]) ∧
    (msg.to' = SendableId.U uid → m.current_user_id ≠ some uid →
      m.mailbox_id_for msg = msg.to' ∧
      msgsAt (m.add_message msg) (SendableId.U uid) =
        msgsAt m (SendableId.U uid) ++ [msg]) ∧
    (msg.to'.is_channel = true → m.mailbox_id_for msg = msg.to') ∧
    (∀ (cu v : UserId) (msg1 msg2 : ChatMessage),
      m.current_user_id = some cu →
      msg1.from' = cu → msg1.to' = SendableId.U v →
      msg2.from' = v → msg2.to' = SendableId.U cu →
      m.mailbox_id_for msg1 = SendableId.U v ∧
      m.mailbox_id_for msg2 = SendableId.U v) := by
  refine ⟨?_, ?_, ?_, ?_⟩
  · intro hto hcur
    have hkey : m.mailbox_id_for msg = SendableId.U msg.from' := by
      unfold Mailroom.mailbox_id_for
      rw [hto, hcur]
      simp
    exact ⟨hkey, by rw [← hkey]; exact add_message_msgsAt_resolved m msg⟩
  · intro hto hcur
    have hkey : m.mailbox_id_for msg = msg.to' := by
      unfold Mailroom.mailbox_id_for
      rw [hto]
      cases hc : m.current_user_id with
      | none => rfl
      | some c =>
        have : c ≠ uid := by
          intro he
          exact hcur (by rw [hc, he])
        simp [this]
    refine ⟨hkey, ?_⟩
    rw [← hto, ← hkey]
    exact add_message_msgsAt_resolved m msg
  · intro hch
    unfold Mailroom.mailbox_id_for
    cases hto : msg.to' with
    | U u => rw [hto] at hch; cases hch
    | C c => rfl
  · intro cu v msg1 msg2 hcur hf1 ht1 hf2 ht2
    constructor
    · unfold Mailroom.mailbox_id_for
      rw [ht1, hcur]
      by_cases hcv : cu = v
      · simp [hcv, hf1, hcv ▸ hf1]
      · simp [hcv]
    · unfold Mailroom.mailbox_id_for
      rw [ht2, hcur]
      simp [hf2]

/-- C2 witness: with current user 1, a message from 2 addressed to user 1 is
filed under the sender's mailbox `User 2`. -/
theorem dm_routing_witness :
    ((Mailroom.new (SendableId.C 0)).set_current_user_id 1).mailbox_id_for
        ⟨0, 2, SendableId.U 1, "hi", 5⟩ = SendableId.U 2 ∧
      msgsAt (((Mailroom.new (SendableId.C 0)).set_current_user_id 1).add_message
          ⟨0, 2, SendableId.U 1, "hi", 5⟩) (SendableId.U 2) =
        msgsAt ((Mailroom.new (SendableId.C 0)).set_current_user_id 1)
          (SendableId.U 2) ++ [⟨0, 2, SendableId.U 1, "hi", 5⟩] :=
  (dm_routing ((Mailroom.new (SendableId.C 0)).set_current_user_id 1)
    ⟨0, 2, SendableId.U 1, "hi", 5⟩ 1).1 rfl rfl

/-- C4: `add_message` appends the message at the end of the resolved
mailbox's log, preserving the prior log; a missing mailbox is lazily created
with display name "unknown"; the append sets `has_unread` unless the mailbox
is active. -/
theorem add_message_appends (m : Mailroom) (msg : ChatMessage) :
    (msgsAt (m.add_message msg) (m.mailbox_id_for msg) =
      msgsAt m (m.mailbox_id_for msg) ++ [msg]) ∧
    (lookupKey (m.mailbox_id_for msg) m.mailboxes = none →
      lookupKey (m.mailbox_id_for msg) (m.add_message msg).mailboxes =
        some ((Mailbox.new "unknown").add_message msg) ∧
      ((Mailbox.new "unknown").add_message msg).display_name = "unknown" ∧
      ((Mailbox.new "unknown").add_message msg).has_unread = true) ∧
    (∀ mb, lookupKey (m.mailbox_id_for msg) m.mailboxes = some mb →
      lookupKey (m.mailbox_id_for msg) (m.add_message msg).mailboxes =
        some (mb.add_message msg) ∧
      (mb.is_active = false → (mb.add_message msg).has_unread = true) ∧
      (mb.is_active = true → (mb.add_message msg).has_unread = mb.has_unread)) := by
  refine ⟨add_message_msgsAt_resolved m msg, ?_, ?_⟩
  · intro hnone
    refine ⟨?_, rfl, rfl⟩
    rw [add_message_lookup_resolved, hnone]
    rfl
  · intro mb hmb
    refine ⟨?_, ?_, ?_⟩
    · rw [add_message_lookup_resolved, hmb]
      rfl
    · intro hina
      simp [Mailbox.add_message, hina]
    · intro ha
      simp [Mailbox.add_message, ha]

/-- C4 witness: a message to channel 7 of a fresh mailroom creates the
"unknown" mailbox holding just that message, with the unread flag set. -/
theorem add_message_appends_witness :
    lookupKey ((Mailroom.new (SendableId.C 0)).mailbox_id_for
        ⟨0, 2, SendableId.C 7, "x", 1⟩)
      ((Mailroom.new (SendableId.C 0)).add_message
        ⟨0, 2, SendableId.C 7, "x", 1⟩).mailboxes =
      some ((Mailbox.new "unknown").add_message ⟨0, 2, SendableId.C 7, "x", 1⟩) ∧
    ((Mailbox.new "unknown").add_message ⟨0, 2, SendableId.C 7, "x", 1⟩).display_name =
      "unknown" ∧
    ((Mailbox.new "unknown").add_message ⟨0, 2, SendableId.C 7, "x", 1⟩).has_unread = true :=
  (add_message_appends (Mailroom.new (SendableId.C 0))
    ⟨0, 2, SendableId.C 7, "x", 1⟩).2.1 rfl

/-- C10: before any session user id is set, a message addressed to a user
identity is filed under the literal addressee, never under the sender: every
other mailbox is untouched. -/
theorem no_session_literal_routing (m : Mailroom) (msg : ChatMessage) (uid : UserId)
    (hcur : m.current_user_id = none) (hto : msg.to' = SendableId.U uid) :
    m.mailbox_id_for msg = msg.to' ∧
    msgsAt (m.add_message msg) (SendableId.U uid) =
      msgsAt m (SendableId.U uid) ++ [msg] ∧
    (∀ k, k ≠ SendableId.U uid →
      lookupKey k (m.add_message msg).mailboxes = lookupKey k m.mailboxes) := by
  have hkey : m.mailbox_id_for msg = msg.to' := by
    unfold Mailroom.mailbox_id_for
    rw [hto, hcur]
  refine ⟨hkey, ?_, ?_⟩
  · rw [← hto, ← hkey]
    exact add_message_msgsAt_resolved m msg
  · intro k hk
    exact add_message_lookup_other m msg (by rw [hkey, hto]; exact hk)

/-- C10 witness: with no session user, a DM from user 3 to user 1 files
under `User 1` and leaves the sender's mailbox `User 3` absent. -/
theorem no_session_literal_routing_witness :
    (Mailroom.new (SendableId.C 0)).mailbox_id_for
        ⟨0, 3, SendableId.U 1, "m", 2⟩ = SendableId.U 1 ∧
    msgsAt ((Mailroom.new (SendableId.C 0)).add_message
        ⟨0, 3, SendableId.U 1, "m", 2⟩) (SendableId.U 1) =
      msgsAt (Mailroom.new (SendableId.C 0)) (SendableId.U 1) ++
        [⟨0, 3, SendableId.U 1, "m", 2⟩] :=
  ⟨(no_session_literal_routing (Mailroom.new (SendableId.C 0))
      ⟨0, 3, SendableId.U 1, "m", 2⟩ 1 rfl rfl).1,
    (no_session_literal_routing (Mailroom.new (SendableId.C 0))
      ⟨0, 3, SendableId.U 1, "m", 2⟩ 1 rfl rfl).2.1⟩

/-- C7: read-only queries are total: on an unknown identity `is_active` and
`has_unread` return `false` and `get_user` returns `none`; when the active
identity has no mailbox, `active_messages` returns `[]` and
`active_display_name` returns `none`.  (Queries are pure functions of the
state, so none of them mutates anything.) -/
theorem queries_total (m : Mailroom) (id : SendableId) (uid : UserId) :
    (lookupKey id m.mailboxes = none →
      m.is_active id = false ∧ m.has_unread id = false) ∧
    (lookupKey uid m.users = none → m.get_user uid = none) ∧
    (lookupKey m.active_id m.mailboxes = none →
      m.active_messages = [] ∧ m.active_display_name = none) := by
  refine ⟨?_, ?_, ?_⟩
  · intro h
    unfold Mailroom.is_active Mailroom.has_unread
    rw [h]
    exact ⟨rfl, rfl⟩
  · intro h
    unfold Mailroom.get_user
    exact h
  · intro h
    unfold Mailroom.active_messages Mailroom.active_display_name
    rw [h]
    exact ⟨rfl, rfl⟩

/-- C7 witness: on a fresh mailroom every query returns its default. -/
theorem queries_total_witness :
    ((Mailroom.new (SendableId.C 0)).is_active (SendableId.U 4) = false ∧
      (Mailroom.new (SendableId.C 0)).has_unread (SendableId.U 4) = false) ∧
    (Mailroom.new (SendableId.C 0)).get_user 4 = none ∧
    ((Mailroom.new (SendableId.C 0)).active_messages = [] ∧
      (Mailroom.new (SendableId.C 0)).active_display_name = none) :=
  ⟨(queries_total (Mailroom.new (SendableId.C 0)) (SendableId.U 4) 4).1 rfl,
    (queries_total (Mailroom.new (SendableId.C 0)) (SendableId.U 4) 4).2.1 rfl,
    (queries_total (Mailroom.new (SendableId.C 0)) (SendableId.U 4) 4).2.2 rfl⟩

/-- C9: `remove_user u` deletes `u`'s directory entry and mailbox, leaves
the active pointer and every other mailbox and directory entry unchanged;
if `u` was the active selection, `active_selection` still returns `User u`
while `active_messages` returns `[]` and `active_display_name` returns
`none`. -/
theorem remove_user_frame (m : Mailroom) (u : UserId) :
    (m.remove_user u).active_selection = m.active_selection ∧
    (m.remove_user u).current_user_id = m.current_user_id ∧
    lookupKey (SendableId.U u) (m.remove_user u).mailboxes = none ∧
    lookupKey u (m.remove_user u).users = none ∧
    (∀ k, k ≠ SendableId.U u →
      lookupKey k (m.remove_user u).mailboxes = lookupKey k m.mailboxes) ∧
    (∀ v : UserId, v ≠ u →
      lookupKey v (m.remove_user u).users = lookupKey v m.users) ∧
    (m.active_id = SendableId.U u →
      (m.remove_user u).active_selection = SendableId.U u ∧
      (m.remove_user u).active_messages = [] ∧
      (m.remove_user u).active_display_name = none) := by
  refine ⟨rfl, rfl, lookupKey_eraseKey_self _ _, lookupKey_eraseKey_self _ _,
    ?_, ?_, ?_⟩
  · intro k hk
    exact lookupKey_eraseKey_ne _ hk
  · intro v hv
    exact lookupKey_eraseKey_ne _ hv
  · intro ha
    have hnone : lookupKey (m.remove_user u).active_id (m.remove_user u).mailboxes = none := by
      have : (m.remove_user u).active_id = SendableId.U u := ha
      rw [this]
      exact lookupKey_eraseKey_self _ _
    refine ⟨ha, ?_, ?_⟩
    · unfold Mailroom.active_messages
      rw [hnone]
      rfl
    · unfold Mailroom.active_display_name
      rw [hnone]

/-- C9 witness: removing user 5 while `User 5` is the active selection
keeps the pointer on `User 5` but empties the active view. -/
theorem remove_user_frame_witness :
    ((((Mailroom.new (SendableId.C 0)).add_user ⟨5, "eve", none⟩).set_active
        (SendableId.U 5)).remove_user 5).active_selection = SendableId.U 5 ∧
    ((((Mailroom.new (SendableId.C 0)).add_user ⟨5, "eve", none⟩).set_active
        (SendableId.U 5)).remove_user 5).active_messages = [] ∧
    ((((Mailroom.new (SendableId.C 0)).add_user ⟨5, "eve", none⟩).set_active
        (SendableId.U 5)).remove_user 5).active_display_name = none :=
  (remove_user_frame (((Mailroom.new (SendableId.C 0)).add_user
    ⟨5, "eve", none⟩).set_active (SendableId.U 5)) 5).2.2.2.2.2.2 rfl

/-! ### Insert-if-absent facts for C1 -/

theorem lookupKey_insertAbsent_of_some [DecidableEq α] {k k' : α} {v w : β}
    {l : List (α × β)} (h : lookupKey k' l = some w) :
    lookupKey k' (insertAbsent k v l) = some w := by
  by_cases hk : k' = k
  · subst hk
    rw [lookupKey_insertAbsent_self, h]
    rfl
  · rw [lookupKey_insertAbsent_ne v l hk]
    exact h

theorem add_channel_present {m : Mailroom} {c : Channel}
    (h : (lookupKey (SendableId.C c.id) m.mailboxes).isSome) :
    m.add_channel c = m := by
  unfold Mailroom.add_channel
  rw [insertAbsent_of_isSome _ _ _ h]

theorem add_channel_idem (m : Mailroom) (c : Channel) :
    (m.add_channel c).add_channel c = m.add_channel c := by
  apply add_channel_present
  show (lookupKey (SendableId.C c.id)
    (insertAbsent (SendableId.C c.id) (Mailbox.new c.name) m.mailboxes)).isSome
  rw [lookupKey_insertAbsent_self]
  rfl

theorem add_channels_preserves {sid : SendableId} {mb : Mailbox} :
    ∀ (xs : List Channel) (m : Mailroom), lookupKey sid m.mailboxes = some mb →
      lookupKey sid (xs.foldl Mailroom.add_channel m).mailboxes = some mb
  | [], _, h => h
  | _ :: xs, m, h =>
    add_channels_preserves xs _ (lookupKey_insertAbsent_of_some h)

theorem add_users_preserves_mailbox {sid : SendableId} {mb : Mailbox} :
    ∀ (xs : List User) (m : Mailroom), lookupKey sid m.mailboxes = some mb →
      lookupKey sid (xs.foldl Mailroom.add_user_entry m).mailboxes = some mb
  | [], _, h => h
  | _ :: xs, m, h =>
    add_users_preserves_mailbox xs _ (lookupKey_insertAbsent_of_some h)

theorem add_users_preserves_user {uid : UserId} {usr : User} :
    ∀ (xs : List User) (m : Mailroom), lookupKey uid m.users = some usr →
      lookupKey uid (xs.foldl Mailroom.add_user_entry m).users = some usr
  | [], _, h => h
  | _ :: xs, m, h =>
    add_users_preserves_user xs _ (lookupKey_insertAbsent_of_some h)

/-- C1 counterexample: `add_user` is not insert-if-absent.  After
`add_user ⟨1, "alice"⟩`, one message filed under `User 1`, and a second
`add_user ⟨1, "alice"⟩`, the mailbox's log is empty instead of the preserved
one-message log the claim promises. -/
theorem add_user_overwrites_cex :
    msgsAt (((Mailroom.new (SendableId.C 0)).add_user
        ⟨1, "alice", none⟩).add_message ⟨0, 2, SendableId.U 1, "hey", 3⟩)
      (SendableId.U 1) = [⟨0, 2, SendableId.U 1, "hey", 3⟩] ∧
    msgsAt ((((Mailroom.new (SendableId.C 0)).add_user
        ⟨1, "alice", none⟩).add_message ⟨0, 2, SendableId.U 1, "hey", 3⟩).add_user
        ⟨1, "alice", none⟩)
      (SendableId.U 1) = [] := by
  constructor <;> rfl

/-- C1 (amended): `add_channel`, `add_channels` and `add_users` are
insert-if-absent — on an existing id they leave the mailbox (and, for
users, the directory entry) untouched, and `add_channel` twice leaves
exactly one mailbox with its log intact — but `add_user` unconditionally
replaces: it installs a fresh empty mailbox and overwrites the directory
entry, leaving exactly one mailbox for the id without preserving the prior
log. -/
theorem add_insert_semantics (m : Mailroom) (c : Channel) (cinfo : ChannelsInfo)
    (uinfo : UsersInfo) (u : User) (sid : SendableId) (uid : UserId) :
    ((lookupKey (SendableId.C c.id) m.mailboxes).isSome → m.add_channel c = m) ∧
    ((m.add_channel c).add_channel c = m.add_channel c) ∧
    (KeysNodup m.mailboxes →
      countKey (SendableId.C c.id) (m.add_channel c).mailboxes = 1) ∧
    (∀ mb, lookupKey sid m.mailboxes = some mb →
      lookupKey sid (m.add_channels cinfo).mailboxes = some mb) ∧
    (∀ mb, lookupKey sid m.mailboxes = some mb →
      lookupKey sid (m.add_users uinfo).mailboxes = some mb) ∧
    (∀ usr, lookupKey uid m.users = some usr →
      lookupKey uid (m.add_users uinfo).users = some usr) ∧
    (lookupKey (SendableId.U u.id) (m.add_user u).mailboxes =
      some (Mailbox.new u.username)) ∧
    (lookupKey u.id (m.add_user u).users = some u) ∧
    (KeysNodup m.mailboxes →
      countKey (SendableId.U u.id) (m.add_user u).mailboxes = 1) := by
  refine ⟨add_channel_present, add_channel_idem m c, ?_,
    fun mb h => add_channels_preserves cinfo.channels m h,
    fun mb h => add_users_preserves_mailbox uinfo.users m h,
    fun usr h => add_users_preserves_user uinfo.users m h,
    lookupKey_insertReplace_self _ _ _,
    lookupKey_insertReplace_self _ _ _, ?_⟩
  · intro hnd
    apply countKey_eq_one (keysNodup_insertAbsent _ _ hnd)
    rw [lookupKey_insertAbsent_self]
    rfl
  · intro hnd
    apply countKey_eq_one (keysNodup_insertReplace _ _ hnd)
    rw [lookupKey_insertReplace_self]
    rfl

/-- C1 witness: double `add_channel` of channel 1 on a fresh mailroom keeps
exactly one mailbox, and `add_user` of user 6 installs the fresh mailbox. -/
theorem add_insert_semantics_witness :
    (((Mailroom.new (SendableId.C 0)).add_channel ⟨1, "general"⟩).add_channel
        ⟨1, "general"⟩ =
      (Mailroom.new (SendableId.C 0)).add_channel ⟨1, "general"⟩) ∧
    countKey (SendableId.C 1)
      (((Mailroom.new (SendableId.C 0)).add_channel ⟨1, "general"⟩).mailboxes) = 1 ∧
    lookupKey (SendableId.U 6)
        (((Mailroom.new (SendableId.C 0)).add_user ⟨6, "bob", none⟩).mailboxes) =
      some (Mailbox.new "bob") :=
  ⟨(add_insert_semantics (Mailroom.new (SendableId.C 0)) ⟨1, "general"⟩ ⟨[]⟩ ⟨[]⟩
      ⟨6, "bob", none⟩ (SendableId.C 1) 6).2.1,
    (add_insert_semantics (Mailroom.new (SendableId.C 0)) ⟨1, "general"⟩ ⟨[]⟩ ⟨[]⟩
      ⟨6, "bob", none⟩ (SendableId.C 1) 6).2.2.1 (by constructor),
    (add_insert_semantics (Mailroom.new (SendableId.C 0)) ⟨1, "general"⟩ ⟨[]⟩ ⟨[]⟩
      ⟨6, "bob", none⟩ (SendableId.C 1) 6).2.2.2.2.2.2.1⟩

/-- C3: starting from a fresh mailroom, any operation sequence reaches a
state where at most one mailbox is active and every active mailbox has no
unread flag; `set_active` on an existing mailbox makes it the unique active
mailbox with `has_unread = false`; and `Mailbox.set_inactive` never touches
the unread flag. -/
theorem active_unread_invariant (a₀ : SendableId) (ops : List MailroomOp) :
    ((Mailroom.new a₀).run ops).mailboxes.countP (fun p => p.2.is_active) ≤ 1 ∧
    (∀ p ∈ ((Mailroom.new a₀).run ops).mailboxes,
      p.2.is_active = true → p.2.has_unread = false) ∧
    (∀ id mb,
      lookupKey id ((Mailroom.new a₀).run ops).mailboxes = some mb →
      ∃ mb', lookupKey id (((Mailroom.new a₀).run ops).set_active id).mailboxes =
          some mb' ∧
        mb'.is_active = true ∧ mb'.has_unread = false ∧
        ∀ p ∈ (((Mailroom.new a₀).run ops).set_active id).mailboxes,
          p.2.is_active = true → p.1 = id) ∧
    (∀ mb : Mailbox, (Mailbox.set_inactive mb).has_unread = mb.has_unread) := by
  obtain ⟨hnd, hndu, hao⟩ := wf_run (wf_new a₀) ops
  refine ⟨?_, ?_, ?_, fun mb => rfl⟩
  · apply countP_le_one_of_key hnd
    intro p hp hact
    exact (hao p.1 p.2 (lookupKey_of_mem hnd hp) hact).1
  · intro p hp hact
    exact (hao p.1 p.2 (lookupKey_of_mem hnd hp) hact).2
  · intro id mb hmb
    obtain ⟨hnd', _, hao'⟩ := wf_set_active ⟨hnd, hndu, hao⟩ id
    have hl : ∃ mb0, lookupKey id
        (updateVal ((Mailroom.new a₀).run ops).active_id Mailbox.set_inactive
          ((Mailroom.new a₀).run ops).mailboxes) = some mb0 := by
      by_cases hia : id = ((Mailroom.new a₀).run ops).active_id
      · rw [hia, lookupKey_updateVal_self, ← hia, hmb]
        exact ⟨mb.set_inactive, rfl⟩
      · rw [lookupKey_updateVal_ne _ _ hia]
        exact ⟨mb, hmb⟩
    obtain ⟨mb0, hmb0⟩ := hl
    refine ⟨mb0.set_active, ?_, rfl, rfl, ?_⟩
    · show lookupKey id (updateVal id Mailbox.set_active
        (updateVal ((Mailroom.new a₀).run ops).active_id Mailbox.set_inactive
          ((Mailroom.new a₀).run ops).mailboxes)) = some mb0.set_active
      rw [lookupKey_updateVal_self, hmb0]
      rfl
    · intro p hp hact
      exact (hao' p.1 p.2 (lookupKey_of_mem hnd' hp) hact).1

/-- C3 witness: announce channel 1 then select it — it is the unique active
mailbox and carries no unread flag. -/
theorem active_unread_invariant_witness :
    ∃ mb', lookupKey (SendableId.C 1)
        ((((Mailroom.new (SendableId.C 0)).run
          [MailroomOp.add_channel ⟨1, "general"⟩]).set_active
            (SendableId.C 1)).mailboxes) = some mb' ∧
      mb'.is_active = true ∧ mb'.has_unread = false ∧
      ∀ p ∈ (((Mailroom.new (SendableId.C 0)).run
          [MailroomOp.add_channel ⟨1, "general"⟩]).set_active
            (SendableId.C 1)).mailboxes,
        p.2.is_active = true → p.1 = SendableId.C 1 :=
  (active_unread_invariant (SendableId.C 0)
    [MailroomOp.add_channel ⟨1, "general"⟩]).2.2.1 (SendableId.C 1)
    (Mailbox.new "general") rfl

/-! ### Message router (`src/ws.rs`) -/

/-- `turtle_protocol::WsShell`, the decoded wire envelope.  Modelled from
the spec: `{type, ...payload}`; the payload is opaque to the router. -/
structure WsShell where
  type_ : String
  payload : String
deriving DecidableEq, Repr

/-- The handler registry `Runtime.msg_handlers`
(`HashMap<String, Vec<Box<dyn FnMut(WsShell)>>>`), with the handlers kept
abstract. -/
abbrev HandlerRegistry (H : Type) := List (String × List H)

/-- `Runtime::register_handler`:
`msg_handlers.entry(msg_type).or_default().push(f)`. -/
def register_handler [Inhabited H] (r : HandlerRegistry H) (msg_type : String)
    (f : H) : HandlerRegistry H :=
  updateVal msg_type (fun fs => fs ++ [f]) (insertAbsent msg_type [] r)

/-- `Runtime::handle_msg`: look up the tag's handler list and call each
handler in order on (a clone of) the message; with no registered list the
message is dropped after a diagnostic.  The result is the call trace. -/
def handle_msg (r : HandlerRegistry H) (msg : WsShell) : List (H × WsShell) :=
  match lookupKey msg.type_ r with
  | some fs => fs.map (fun f => (f, msg))
  | none => []

theorem lookup_register_self [Inhabited H] (r : HandlerRegistry H) (t : String) (f : H) :
    lookupKey t (register_handler r t f) = some ((lookupKey t r).getD [] ++ [f]) := by
  unfold register_handler
  rw [lookupKey_updateVal_self, lookupKey_insertAbsent_self]
  rfl

theorem lookup_register_fold [Inhabited H] (t : String) :
    ∀ (hs : List H) (r : HandlerRegistry H) (fs : List H),
      lookupKey t r = some fs →
      lookupKey t (hs.foldl (fun r f => register_handler r t f) r) = some (fs ++ hs)
  | [], r, fs, h => by simpa using h
  | f :: hs, r, fs, h => by
    have step : lookupKey t (register_handler r t f) = some (fs ++ [f]) := by
      rw [lookup_register_self, h]
      rfl
    have := lookup_register_fold t hs (register_handler r t f) (fs ++ [f]) step
    simpa [List.append_assoc] using this

/-- C5: registering `h1..hn` for a tag and then dispatching a message
carrying that tag invokes each `hi` exactly once, in registration order,
all within the dispatch; with zero registered handlers nothing is invoked
and the message is dropped. -/
theorem dispatch_fanout (H : Type) [Inhabited H] (msg : WsShell) (hs : List H) :
    handle_msg (hs.foldl (fun r f => register_handler r msg.type_ f)
        ([] : HandlerRegistry H)) msg =
      hs.map (fun f => (f, msg)) ∧
    handle_msg ([] : HandlerRegistry H) msg = [] := by
  constructor
  · cases hs with
    | nil => rfl
    | cons f hs =>
      have h0 : lookupKey msg.type_
          (register_handler ([] : HandlerRegistry H) msg.type_ f) = some [f] := by
        rw [lookup_register_self]
        rfl
      have hl := lookup_register_fold msg.type_ hs _ [f] h0
      simp only [List.foldl_cons, handle_msg]
      rw [hl]
      rfl
  · rfl

/-! ### Connection manager close handling (`src/ws.rs`) -/

/-- One externally visible call made while the `onclose` callback runs:
invoking the stored close-hook, or `setTimeout(reconnector, delay)`. -/
inductive CloseCall (H : Type)
  | hook_call (f : H)
  | set_timeout (delay : Nat)
deriving DecidableEq, Repr

/-- Is this call a reconnect scheduling? -/
def CloseCall.is_schedule : CloseCall H → Bool
  | .set_timeout _ => true
  | .hook_call _ => false

/-- `Runtime::run_close_hook`: take the hook out of its slot, call it, put
it back; silently skip when no hook is registered.  Returns the slot as the
callback leaves it and the calls made. -/
def run_close_hook (slot : Option H) : Option H × List (CloseCall H) :=
  match slot with
  | some f => (some f, [CloseCall.hook_call f])
  | none => (none, [])

/-- `Runtime::set_reconnect_timeout`: a single
`setTimeout(reconnector, 1000)`. -/
def set_reconnect_timeout_calls : List (CloseCall H) :=
  [CloseCall.set_timeout 1000]

/-- The `onclose` callback bound in `Runtime::new`: run the close hook,
then arm the reconnect timer. -/
def onclose (slot : Option H) : Option H × List (CloseCall H) :=
  let (slot', calls) := run_close_hook slot
  (slot', calls ++ set_reconnect_timeout_calls)

/-- C8: one close event runs the registered close-hook (when present) and
then schedules exactly one reconnection attempt, with the fixed delay 1000;
the hook slot is restored. -/
theorem onclose_schedules_once (H : Type) (slot : Option H) :
    (onclose slot).2.countP CloseCall.is_schedule = 1 ∧
    (onclose slot).2.getLast? = some (CloseCall.set_timeout 1000) ∧
    (onclose slot).1 = slot ∧
    (∀ f, slot = some f →
      (onclose slot).2 = [CloseCall.hook_call f, CloseCall.set_timeout 1000]) ∧
    (slot = none → (onclose slot).2 = [CloseCall.set_timeout 1000]) := by
  cases slot with
  | none =>
    refine ⟨rfl, rfl, rfl, ?_, fun _ => rfl⟩
    intro f h
    cases h
  | some f =>
    refine ⟨rfl, rfl, rfl, ?_, ?_⟩
    · intro g h
      injection h with h
      rw [h]
      rfl
    · intro h
      cases h

/-- C8 witness: with a close-hook registered, the close event produces the
hook call followed by the single `setTimeout(…, 1000)`. -/
theorem onclose_schedules_once_witness :
    (onclose (some 7)).2 = [CloseCall.hook_call 7, CloseCall.set_timeout 1000] :=
  (onclose_schedules_once Nat (some 7)).2.2.2.1 7 rfl

/-! ### Order facts for the list queries (C6) -/

theorem charListLe_total : ∀ a b : List Char, charListLe a b = true ∨ charListLe b a = true
  | [], _ => Or.inl rfl
  | _ :: _, [] => Or.inr rfl
  | c :: cs, d :: ds => by
    by_cases h1 : c.toNat < d.toNat
    · left
      simp [charListLe, h1]
    · by_cases h2 : d.toNat < c.toNat
      · right
        simp [charListLe, h2]
      · rcases charListLe_total cs ds with h | h <;>
          [left; right] <;> simp [charListLe, h1, h2, h]

theorem charListLe_trans : ∀ a b c : List Char,
    charListLe a b = true → charListLe b c = true → charListLe a c = true
  | [], _, _, _, _ => rfl
  | _ :: _, [], _, hab, _ => by simp [charListLe] at hab
  | _ :: _, _ :: _, [], _, hbc => by simp [charListLe] at hbc
  | x :: xs, y :: ys, z :: zs, hab, hbc => by
    simp only [charListLe] at hab hbc ⊢
    by_cases hxy1 : x.toNat < y.toNat
    · by_cases hyz1 : y.toNat < z.toNat
      · simp [Nat.lt_trans hxy1 hyz1]
      · by_cases hyz2 : z.toNat < y.toNat
        · simp [hyz1, hyz2] at hbc
        · have hyz : y.toNat = z.toNat := by omega
          simp [hyz ▸ hxy1]
    · by_cases hxy2 : y.toNat < x.toNat
      · simp [hxy1, hxy2] at hab
      · have hxy : x.toNat = y.toNat := by omega
        by_cases hyz1 : y.toNat < z.toNat
        · simp [hxy ▸ hyz1]
        · by_cases hyz2 : z.toNat < y.toNat
          · simp [hyz1, hyz2] at hbc
          · have hyz : y.toNat = z.toNat := by omega
            simp [hxy1, hxy2] at hab
            simp [hyz1, hyz2] at hbc
            have h1 : ¬ x.toNat < z.toNat := by omega
            have h2 : ¬ z.toNat < x.toNat := by omega
            simp [h1, h2]
            exact charListLe_trans xs ys zs hab hbc

theorem strLe_total (a b : String) : strLe a b = true ∨ strLe b a = true :=
  charListLe_total a.data b.data

theorem strLe_trans {a b c : String} (hab : strLe a b = true) (hbc : strLe b c = true) :
    strLe a c = true :=
  charListLe_trans a.data b.data c.data hab hbc

instance : IsTotal (ChannelId × String) nameLe :=
  ⟨fun a b => strLe_total a.2 b.2⟩

instance : IsTrans (ChannelId × String) nameLe :=
  ⟨fun _ _ _ hab hbc => strLe_trans hab hbc⟩

instance (cur : Option UserId) : IsTotal (UserId × String) (userLe cur) := by
  constructor
  intro a b
  cases cur with
  | none => exact strLe_total a.2 b.2
  | some c =>
    by_cases ha : a.1 = c
    · left
      simp [userLe, ha]
    · by_cases hb : b.1 = c
      · right
        simp [userLe, hb]
      · rcases strLe_total a.2 b.2 with h | h <;> [left; right] <;>
          simp [userLe, ha, hb, h]

instance (cur : Option UserId) : IsTrans (UserId × String) (userLe cur) := by
  constructor
  intro a b c hab hbc
  cases cur with
  | none => exact strLe_trans hab hbc
  | some cu =>
    by_cases ha : a.1 = cu
    · simp [userLe, ha]
    · simp only [userLe, if_neg ha] at hab ⊢
      by_cases hb : b.1 = cu
      · rw [if_pos hb] at hab
        cases hab
      · simp only [userLe, if_neg hb] at hab hbc
        by_cases hc : c.1 = cu
        · rw [if_pos hc] at hbc
          cases hbc
        · rw [if_neg hc] at hbc ⊢
          exact strLe_trans hab hbc

/-- C6: `channel_list` returns exactly the channel-kind mailboxes as
`(id, display name)` pairs sorted by name regardless of insertion order,
and `user_list` returns exactly the directory users as `(id, username)`
pairs with the current session's user first (when set) and the rest sorted
by username; e.g. with current user "bob" and others "alice","carol" the
result is `[bob, alice, carol]`. -/
theorem list_sorting (m : Mailroom) (c : UserId) :
    (m.channel_list).Perm (m.mailboxes.filterMap (fun p =>
      match p.1 with
      | SendableId.C cid => some (cid, p.2.display_name)
      | SendableId.U _ => none)) ∧
    (m.channel_list).Sorted nameLe ∧
    (m.user_list).Perm (m.users.map (fun p => (p.1, p.2.username))) ∧
    (m.user_list).Sorted (userLe m.current_user_id) ∧
    (m.current_user_id = some c →
      (m.user_list).Pairwise (fun a b => b.1 = c → a.1 = c) ∧
      ((m.user_list).filter (fun p => decide (p.1 ≠ c))).Sorted nameLe) ∧
    (((Mailroom.new (SendableId.C 0)).add_channel ⟨1, "general"⟩).add_channel
        ⟨2, "random"⟩).channel_list = [(1, "general"), (2, "random")] ∧
    (((Mailroom.new (SendableId.C 0)).add_channel ⟨2, "random"⟩).add_channel
        ⟨1, "general"⟩).channel_list = [(1, "general"), (2, "random")] ∧
    (((Mailroom.new (SendableId.C 0)).add_users
        ⟨[⟨1, "alice", none⟩, ⟨2, "bob", none⟩,
          ⟨3, "carol", none⟩]⟩).set_current_user_id 2).user_list =
      [(2, "bob"), (1, "alice"), (3, "carol")] := by
  have husort : (m.user_list).Sorted (userLe m.current_user_id) :=
    List.sorted_insertionSort _ _
  refine ⟨List.perm_insertionSort _ _, List.sorted_insertionSort _ _,
    List.perm_insertionSort _ _, husort, ?_, by decide, by decide, by decide⟩
  intro hc
  rw [hc] at husort
  constructor
  · refine List.Pairwise.imp ?_ husort
    intro a b hab hbc
    by_cases ha : a.1 = c
    · exact ha
    · exfalso
      simp only [userLe, if_neg ha, if_pos hbc] at hab
  · refine List.Pairwise.imp_of_mem ?_ (husort.sublist (List.filter_sublist _))
    intro a b hain hbin hab
    have ha : a.1 ≠ c := by
      have := (List.mem_filter.mp hain).2
      simpa using this
    have hb : b.1 ≠ c := by
      have := (List.mem_filter.mp hbin).2
      simpa using this
    simpa only [userLe, if_neg ha, if_neg hb] using hab

/-- C6 witness: with current user "bob" (id 2) and directory
"alice","bob","carol", the user list puts bob first and the others in
name order. -/
theorem list_sorting_witness :
    ((((Mailroom.new (SendableId.C 0)).add_users
        ⟨[⟨1, "alice", none⟩, ⟨2, "bob", none⟩,
          ⟨3, "carol", none⟩]⟩).set_current_user_id 2).user_list).Pairwise
      (fun a b => b.1 = 2 → a.1 = 2) ∧
    (((((Mailroom.new (SendableId.C 0)).add_users
        ⟨[⟨1, "alice", none⟩, ⟨2, "bob", none⟩,
          ⟨3, "carol", none⟩]⟩).set_current_user_id 2).user_list).filter
      (fun p => decide (p.1 ≠ 2))).Sorted nameLe :=
  (list_sorting (((Mailroom.new (SendableId.C 0)).add_users
    ⟨[⟨1, "alice", none⟩, ⟨2, "bob", none⟩,
      ⟨3, "carol", none⟩]⟩).set_current_user_id 2) 2).2.2.2.2.1 rfl
